import Mathlib

/-!
Verification of the Cipher Aegis flow aggregation engine.

This file is a shallow embedding of the flow aggregation core:
the data model of src/core/models.py (Protocol, FlowKey, PacketInfo,
FlowStats, FlowFeatures) and the aggregator of src/core/features.py
(FeatureExtractor: process_packet, _update_flow_stats, _is_flow_complete,
_extract_features, _safe_mean, _safe_std, _cleanup_stale_flows,
finalize_all_flows, get_statistics).

Modelling conventions:
* Python floats (timestamps, inter-arrival times) are modelled as rationals;
  packet lengths stay integers as in the source (list[int]).
* The Python dict self._flows is modelled as an insertion-ordered
  association list: assignment to a fresh key appends at the end,
  assignment to an existing key updates in place, del removes by key,
  iteration follows list order.
* Python's math.sqrt (inside statistics.stdev) is kept abstract as a
  parameter sqrtQ of the feature derivation; no claim depends on its
  values beyond being a function.
* The wall-clock condition time.time() - self._last_cleanup >
  self.cleanup_interval that gates the periodic cleanup inside
  process_packet is an external nondeterministic input; it is modelled by
  the boolean argument runCleanup, so theorems quantify over both outcomes.
-/

namespace CipherAegis

/-- Protocol enum from src/core/models.py. -/
inductive Protocol where
  | TCP
  | UDP
  | ICMP
  | OTHER
deriving DecidableEq, Repr

/-- FlowKey from src/core/models.py: immutable 5-tuple identifying a flow. -/
structure FlowKey where
  src_ip : String
  dst_ip : String
  src_port : ℤ
  dst_port : ℤ
  protocol : Protocol
deriving DecidableEq, Repr

/-- FlowKey.reverse from src/core/models.py: swap the endpoints, keep the
protocol. -/
def FlowKey.reverse (k : FlowKey) : FlowKey :=
  { src_ip := k.dst_ip
    dst_ip := k.src_ip
    src_port := k.dst_port
    dst_port := k.src_port
    protocol := k.protocol }

/-- PacketInfo from src/core/models.py: parsed information of one packet. -/
structure PacketInfo where
  timestamp : ℚ
  src_ip : String
  dst_ip : String
  src_port : ℤ
  dst_port : ℤ
  protocol : Protocol
  length : ℤ
  flags : Option String := none
  payload_size : ℤ := 0
deriving DecidableEq, Repr

/-- FlowStats from src/core/models.py: the mutable accumulator of one
bidirectional flow. -/
structure FlowStats where
  flow_key : FlowKey
  first_timestamp : ℚ
  last_timestamp : ℚ
  fwd_packet_count : ℕ := 0
  bwd_packet_count : ℕ := 0
  fwd_packet_lengths : List ℤ := []
  bwd_packet_lengths : List ℤ := []
  fwd_iat : List ℚ := []
  bwd_iat : List ℚ := []
  tcp_flags : List String := []
deriving DecidableEq, Repr

/-- FlowStats.duration property: max(last - first, 0). -/
def FlowStats.duration (fs : FlowStats) : ℚ :=
  max (fs.last_timestamp - fs.first_timestamp) 0

/-- FlowStats.total_packets property: packets in both directions. -/
def FlowStats.total_packets (fs : FlowStats) : ℕ :=
  fs.fwd_packet_count + fs.bwd_packet_count

/-- FlowFeatures from src/core/models.py: the derived feature vector of a
finalized flow. -/
structure FlowFeatures where
  flow_key : FlowKey
  flow_duration : ℚ
  total_fwd_packets : ℕ
  total_bwd_packets : ℕ
  total_packets : ℕ
  fwd_packet_length_mean : ℚ
  fwd_packet_length_std : ℚ
  bwd_packet_length_mean : ℚ
  bwd_packet_length_std : ℚ
  packet_length_mean : ℚ
  packet_length_std : ℚ
  fwd_iat_mean : ℚ
  fwd_iat_std : ℚ
  bwd_iat_mean : ℚ
  bwd_iat_std : ℚ
  iat_mean : ℚ
  iat_std : ℚ
  timestamp : ℚ
  protocol : Protocol
deriving DecidableEq, Repr

/-! ### The flow table

self._flows is a Python dict FlowKey -> FlowStats, modelled as an
insertion-ordered association list. -/

/-- The flow table type. -/
abbrev FlowTable := List (FlowKey × FlowStats)

/-- Keys of the table, in insertion order. -/
def keysOf (t : FlowTable) : List FlowKey :=
  t.map (fun e => e.1)

/-- Dict lookup (first entry with the given key). -/
def lookupFlow (k : FlowKey) : FlowTable → Option FlowStats
  | [] => none
  | e :: es => if e.1 = k then some e.2 else lookupFlow k es

/-- Dict assignment to an existing key: update the stored value in place.
Models the in-place mutation of the FlowStats object held by the dict. -/
def setFlow (k : FlowKey) (fs : FlowStats) (t : FlowTable) : FlowTable :=
  t.map (fun e => if e.1 = k then (k, fs) else e)

/-- Dict del on a key known to be present: drop the entry with that key. -/
def eraseFlow (k : FlowKey) (t : FlowTable) : FlowTable :=
  t.filter (fun e => e.1 ≠ k)

/-- Python del d[k] with its failure behaviour: KeyError (modelled as none)
when the key is absent, otherwise the table without that key. -/
def dictDel (k : FlowKey) (t : FlowTable) : Option FlowTable :=
  if t.any (fun e => e.1 = k) then some (eraseFlow k t) else none

/-! ### Statistics helpers (FeatureExtractor._safe_mean / _safe_std) -/

/-- FeatureExtractor._safe_mean: arithmetic mean, 0.0 on the empty list. -/
def safe_mean (xs : List ℚ) : ℚ :=
  if xs = [] then 0 else xs.sum / (xs.length : ℚ)

/-- Sample variance with Bessel correction, the quantity whose square root
Python's statistics.stdev returns (it is only applied to lists of length at
least 2). -/
def sampleVariance (xs : List ℚ) : ℚ :=
  ((xs.map (fun x => (x - xs.sum / (xs.length : ℚ)) ^ 2)).sum) / ((xs.length : ℚ) - 1)

/-- FeatureExtractor._safe_std: statistics.stdev (square root of the sample
variance) for lists of length greater than 1, 0.0 otherwise. The square root
on rationals is the abstract parameter sqrtQ. -/
def safe_std (sqrtQ : ℚ → ℚ) (xs : List ℚ) : ℚ :=
  if 1 < xs.length then sqrtQ (sampleVariance xs) else 0

/-! ### The aggregator state and operations -/

/-- The mutable state of a FeatureExtractor: configuration, the flow table
and the two counters (the lock and the wall-clock cleanup bookkeeping are
not part of the functional state). -/
structure ExtractorState where
  flow_timeout : ℚ
  flows : FlowTable
  total_flows_created : ℕ
  total_flows_completed : ℕ
deriving DecidableEq, Repr

/-- FeatureExtractor.__init__ with an empty table and zeroed counters. -/
def initState (flow_timeout : ℚ) : ExtractorState :=
  { flow_timeout := flow_timeout
    flows := []
    total_flows_created := 0
    total_flows_completed := 0 }

/-- FeatureExtractor._create_flow_key. -/
def createFlowKey (p : PacketInfo) : FlowKey :=
  { src_ip := p.src_ip
    dst_ip := p.dst_ip
    src_port := p.src_port
    dst_port := p.dst_port
    protocol := p.protocol }

/-- The fresh FlowStats built in process_packet's create branch. -/
def newFlowStats (k : FlowKey) (ts : ℚ) : FlowStats :=
  { flow_key := k
    first_timestamp := ts
    last_timestamp := ts }

/-- Forward half of FeatureExtractor._update_flow_stats: count the packet,
append its length, and derive the inter-arrival sample exactly as the source
does (condition on the length list after appending; previous arrival time
reconstructed as first_timestamp plus the sum of recorded inter-arrivals;
clamped at 0). -/
def updFwd (fs : FlowStats) (p : PacketInfo) : FlowStats :=
  let lens := fs.fwd_packet_lengths ++ [p.length]
  let iats :=
    if 1 < lens.length then
      let iat :=
        if fs.fwd_iat ≠ [] then
          p.timestamp - (fs.first_timestamp + fs.fwd_iat.sum)
        else
          p.timestamp - fs.first_timestamp
      fs.fwd_iat ++ [max iat 0]
    else fs.fwd_iat
  { fs with
      fwd_packet_count := fs.fwd_packet_count + 1
      fwd_packet_lengths := lens
      fwd_iat := iats }

/-- Backward half of FeatureExtractor._update_flow_stats, mirror of updFwd. -/
def updBwd (fs : FlowStats) (p : PacketInfo) : FlowStats :=
  let lens := fs.bwd_packet_lengths ++ [p.length]
  let iats :=
    if 1 < lens.length then
      let iat :=
        if fs.bwd_iat ≠ [] then
          p.timestamp - (fs.first_timestamp + fs.bwd_iat.sum)
        else
          p.timestamp - fs.first_timestamp
      fs.bwd_iat ++ [max iat 0]
    else fs.bwd_iat
  { fs with
      bwd_packet_count := fs.bwd_packet_count + 1
      bwd_packet_lengths := lens
      bwd_iat := iats }

/-- FeatureExtractor._update_flow_stats: update last_timestamp
unconditionally, update the direction picked by is_forward, log TCP flags
(Python truthiness: a missing or empty flag string is skipped). -/
def updateFlowStats (fs : FlowStats) (p : PacketInfo) (is_forward : Bool) : FlowStats :=
  let fs1 := { fs with last_timestamp := p.timestamp }
  let fs2 := if is_forward then updFwd fs1 p else updBwd fs1 p
  let fl := p.flags.getD ""
  if fl ≠ "" then { fs2 with tcp_flags := fs2.tcp_flags ++ [fl] } else fs2

/-- FeatureExtractor._is_flow_complete: inactivity reached the timeout. -/
def isFlowComplete (flow_timeout : ℚ) (fs : FlowStats) (current_time : ℚ) : Bool :=
  flow_timeout ≤ current_time - fs.last_timestamp

/-- FeatureExtractor._extract_features: all 16 numeric fields computed from
the finished accumulator; combined statistics over the concatenation of the
forward and backward sequences. -/
def extractFeatures (sqrtQ : ℚ → ℚ) (fs : FlowStats) : FlowFeatures :=
  let fwdLens := fs.fwd_packet_lengths.map (fun n => (n : ℚ))
  let bwdLens := fs.bwd_packet_lengths.map (fun n => (n : ℚ))
  let all_lengths := fwdLens ++ bwdLens
  let all_iats := fs.fwd_iat ++ fs.bwd_iat
  { flow_key := fs.flow_key
    flow_duration := fs.duration
    total_fwd_packets := fs.fwd_packet_count
    total_bwd_packets := fs.bwd_packet_count
    total_packets := fs.total_packets
    fwd_packet_length_mean := safe_mean fwdLens
    fwd_packet_length_std := safe_std sqrtQ fwdLens
    bwd_packet_length_mean := safe_mean bwdLens
    bwd_packet_length_std := safe_std sqrtQ bwdLens
    packet_length_mean := safe_mean all_lengths
    packet_length_std := safe_std sqrtQ all_lengths
    fwd_iat_mean := safe_mean fs.fwd_iat
    fwd_iat_std := safe_std sqrtQ fs.fwd_iat
    bwd_iat_mean := safe_mean fs.bwd_iat
    bwd_iat_std := safe_std sqrtQ fs.bwd_iat
    iat_mean := safe_mean all_iats
    iat_std := safe_std sqrtQ all_iats
    timestamp := fs.first_timestamp
    protocol := fs.flow_key.protocol }

/-- FeatureExtractor._cleanup_stale_flows: collect the stale entries first
(one pass over the table gathering keys and feature vectors), then delete
the collected keys, counting each as completed. -/
def cleanupStaleFlows (sqrtQ : ℚ → ℚ) (s : ExtractorState) (current_time : ℚ) :
    List FlowFeatures × ExtractorState :=
  let stale := s.flows.filter (fun e => isFlowComplete s.flow_timeout e.2 current_time)
  let completed_features := stale.map (fun e => extractFeatures sqrtQ e.2)
  let flows_to_remove := stale.map (fun e => e.1)
  let flows1 := flows_to_remove.foldl (fun t k => eraseFlow k t) s.flows
  (completed_features,
    { s with
        flows := flows1
        total_flows_completed := s.total_flows_completed + flows_to_remove.length })

/-- FeatureExtractor.process_packet: resolve or create the accumulator
(direct key first, then reversed key), update it, then check completion
against the packet's timestamp; on completion delete the accumulator (by its
stored flow_key field) and return its features; otherwise possibly run the
periodic cleanup (gated in the source by wall-clock time, here by
runCleanup) and surface only the first vector the cleanup produced. -/
def processPacket (sqrtQ : ℚ → ℚ) (s : ExtractorState) (p : PacketInfo)
    (runCleanup : Bool) : Option FlowFeatures × ExtractorState :=
  let flow_key := createFlowKey p
  let reverse_key := flow_key.reverse
  let resolved : FlowStats × Bool × FlowKey × FlowTable × ℕ :=
    match lookupFlow flow_key s.flows with
    | some fs => (fs, true, flow_key, s.flows, s.total_flows_created)
    | none =>
      match lookupFlow reverse_key s.flows with
      | some fs => (fs, false, reverse_key, s.flows, s.total_flows_created)
      | none =>
        let fs := newFlowStats flow_key p.timestamp
        (fs, true, flow_key, s.flows ++ [(flow_key, fs)], s.total_flows_created + 1)
  match resolved with
  | (fs, is_forward, storedKey, flows0, created) =>
    let updated := updateFlowStats fs p is_forward
    let flows1 := setFlow storedKey updated flows0
    if isFlowComplete s.flow_timeout updated p.timestamp then
      (some (extractFeatures sqrtQ updated),
        { s with
            flows := eraseFlow updated.flow_key flows1
            total_flows_created := created
            total_flows_completed := s.total_flows_completed + 1 })
    else if runCleanup then
      let c := cleanupStaleFlows sqrtQ
        { s with flows := flows1, total_flows_created := created } p.timestamp
      (c.1.head?, c.2)
    else
      (none, { s with flows := flows1, total_flows_created := created })

/-- FeatureExtractor.finalize_all_flows: features of every active flow, all
counted as completed, table cleared. -/
def finalizeAllFlows (sqrtQ : ℚ → ℚ) (s : ExtractorState) :
    List FlowFeatures × ExtractorState :=
  (s.flows.map (fun e => extractFeatures sqrtQ e.2),
    { s with
        flows := []
        total_flows_completed := s.total_flows_completed + s.flows.length })

/-- The dict returned by FeatureExtractor.get_statistics. -/
structure Statistics where
  active_flows : ℕ
  total_flows_created : ℕ
  total_flows_completed : ℕ
deriving DecidableEq, Repr

/-- FeatureExtractor.get_statistics. -/
def getStatistics (s : ExtractorState) : Statistics :=
  { active_flows := s.flows.length
    total_flows_created := s.total_flows_created
    total_flows_completed := s.total_flows_completed }

/-! ### Operation sequences -/

/-- One externally triggered operation on a FeatureExtractor. -/
inductive AggOp where
  | ingest (p : PacketInfo) (runCleanup : Bool)
  | sweep (now : ℚ)
  | drain
deriving Repr

/-- State transition of one operation (outputs dropped). -/
def stepOp (sqrtQ : ℚ → ℚ) (s : ExtractorState) : AggOp → ExtractorState
  | .ingest p c => (processPacket sqrtQ s p c).2
  | .sweep now => (cleanupStaleFlows sqrtQ s now).2
  | .drain => (finalizeAllFlows sqrtQ s).2

/-- Run a sequence of operations from a fresh extractor. -/
def runOps (sqrtQ : ℚ → ℚ) (flow_timeout : ℚ) (ops : List AggOp) : ExtractorState :=
  ops.foldl (stepOp sqrtQ) (initState flow_timeout)

/-! ### Table lemmas -/

theorem FlowKey.reverse_reverse (k : FlowKey) : k.reverse.reverse = k := rfl

theorem keysOf_nil : keysOf [] = [] := rfl

theorem keysOf_cons (e : FlowKey × FlowStats) (es : FlowTable) :
    keysOf (e :: es) = e.1 :: keysOf es := rfl

theorem lookupFlow_eq_none {k : FlowKey} {t : FlowTable} :
    lookupFlow k t = none ↔ k ∉ keysOf t := by
  induction t with
  | nil => simp [lookupFlow, keysOf_nil]
  | cons e es ih =>
    by_cases h : e.1 = k
    · simp [lookupFlow, keysOf_cons, h]
    · rw [lookupFlow, if_neg h, ih, keysOf_cons]
      simp only [List.mem_cons, not_or]
      constructor
      · intro hn
        exact ⟨fun hk => h hk.symm, hn⟩
      · intro hn
        exact hn.2

theorem mem_of_lookupFlow {k : FlowKey} {t : FlowTable} {fs : FlowStats}
    (h : lookupFlow k t = some fs) : (k, fs) ∈ t := by
  induction t with
  | nil => simp [lookupFlow] at h
  | cons e es ih =>
    by_cases he : e.1 = k
    · simp [lookupFlow, he] at h
      subst he h
      exact List.mem_cons_self _ _
    · simp [lookupFlow, he] at h
      exact List.mem_cons_of_mem _ (ih h)

theorem keysOf_mem_of_lookupFlow {k : FlowKey} {t : FlowTable} {fs : FlowStats}
    (h : lookupFlow k t = some fs) : k ∈ keysOf t := by
  have := mem_of_lookupFlow h
  exact List.mem_map.mpr ⟨(k, fs), this, rfl⟩

theorem keysOf_setFlow (k : FlowKey) (fs : FlowStats) (t : FlowTable) :
    keysOf (setFlow k fs t) = keysOf t := by
  induction t with
  | nil => rfl
  | cons e es ih =>
    by_cases h : e.1 = k
    · simp [setFlow, keysOf, h] at ih ⊢
      exact ih
    · simp [setFlow, keysOf, h] at ih ⊢
      exact ih

theorem mem_setFlow {k : FlowKey} {fs : FlowStats} {t : FlowTable} {e : FlowKey × FlowStats}
    (h : e ∈ setFlow k fs t) : e = (k, fs) ∨ e ∈ t := by
  rcases List.mem_map.mp h with ⟨e0, he0, heq⟩
  by_cases h1 : e0.1 = k
  · left
    simp [h1] at heq
    exact heq.symm
  · right
    simp [h1] at heq
    exact heq ▸ he0

theorem eraseFlow_sublist (k : FlowKey) (t : FlowTable) :
    (eraseFlow k t).Sublist t :=
  List.filter_sublist t

theorem keysOf_eraseFlow_sublist (k : FlowKey) (t : FlowTable) :
    (keysOf (eraseFlow k t)).Sublist (keysOf t) :=
  List.Sublist.map _ (eraseFlow_sublist k t)

theorem eraseFlow_cons_self {k : FlowKey} {e : FlowKey × FlowStats} {es : FlowTable}
    (h : e.1 = k) : eraseFlow k (e :: es) = eraseFlow k es := by
  simp [eraseFlow, List.filter_cons, h]

theorem eraseFlow_cons_ne {k : FlowKey} {e : FlowKey × FlowStats} {es : FlowTable}
    (h : ¬ e.1 = k) : eraseFlow k (e :: es) = e :: eraseFlow k es := by
  simp [eraseFlow, List.filter_cons, h]

theorem eraseFlow_of_not_mem {k : FlowKey} {t : FlowTable}
    (h : k ∉ keysOf t) : eraseFlow k t = t := by
  induction t with
  | nil => rfl
  | cons e es ih =>
    rw [keysOf_cons] at h
    simp only [List.mem_cons, not_or] at h
    rw [eraseFlow_cons_ne (fun hk => h.1 hk.symm), ih h.2]

theorem length_eraseFlow_of_mem {k : FlowKey} {t : FlowTable}
    (hnd : (keysOf t).Nodup) (hk : k ∈ keysOf t) :
    (eraseFlow k t).length + 1 = t.length := by
  induction t with
  | nil => simp [keysOf_nil] at hk
  | cons e es ih =>
    rw [keysOf_cons] at hnd hk
    rw [List.nodup_cons] at hnd
    by_cases he : e.1 = k
    · have hnot : k ∉ keysOf es := he ▸ hnd.1
      rw [eraseFlow_cons_self he, eraseFlow_of_not_mem hnot]
      simp
    · rcases List.mem_cons.mp hk with hk | hk
      · exact absurd hk.symm he
      · rw [eraseFlow_cons_ne he]
        have := ih hnd.2 hk
        simp only [List.length_cons]
        omega

theorem foldl_eraseFlow (ks : List FlowKey) (t : FlowTable) :
    ks.foldl (fun a k => eraseFlow k a) t = t.filter (fun e => decide (e.1 ∉ ks)) := by
  induction ks generalizing t with
  | nil => simp
  | cons k ks ih =>
    rw [List.foldl_cons, ih]
    simp only [eraseFlow]
    rw [List.filter_filter]
    apply List.filter_congr
    intro e _
    by_cases h1 : e.1 = k <;> by_cases h2 : e.1 ∈ ks <;> simp [h1, h2]

theorem lookupFlow_filter {k : FlowKey} {t : FlowTable} {fs : FlowStats}
    {q : FlowKey × FlowStats → Bool}
    (h : lookupFlow k t = some fs) (hq : q (k, fs) = true) :
    lookupFlow k (t.filter q) = some fs := by
  induction t with
  | nil => simp [lookupFlow] at h
  | cons e es ih =>
    by_cases he : e.1 = k
    · simp [lookupFlow, he] at h
      subst he h
      simp [List.filter_cons, hq, lookupFlow]
    · simp [lookupFlow, he] at h
      by_cases hqe : q e = true
      · simp [List.filter_cons, hqe, lookupFlow, he]
        exact ih h
      · simp at hqe
        simp [List.filter_cons, hqe]
        exact ih h

theorem lookupFlow_setFlow_self {k : FlowKey} {t : FlowTable} {fs v : FlowStats}
    (h : lookupFlow k t = some fs) :
    lookupFlow k (setFlow k v t) = some v := by
  induction t with
  | nil => simp [lookupFlow] at h
  | cons e es ih =>
    by_cases he : e.1 = k
    · simp [setFlow, he, lookupFlow]
    · simp [lookupFlow, he] at h
      simp [setFlow, he, lookupFlow]
      exact ih h

theorem lookupFlow_append_self {k : FlowKey} {t : FlowTable} {fs : FlowStats}
    (h : lookupFlow k t = none) :
    lookupFlow k (t ++ [(k, fs)]) = some fs := by
  induction t with
  | nil => simp [lookupFlow]
  | cons e es ih =>
    by_cases he : e.1 = k
    · simp [lookupFlow, he] at h
    · simp [lookupFlow, he] at h ⊢
      exact ih h

/-! ### Projections of the per-packet update -/

theorem updateFlowStats_flow_key (fs : FlowStats) (p : PacketInfo) (d : Bool) :
    (updateFlowStats fs p d).flow_key = fs.flow_key := by
  cases d <;> simp only [updateFlowStats, updFwd, updBwd] <;> split <;> rfl

theorem updateFlowStats_first_timestamp (fs : FlowStats) (p : PacketInfo) (d : Bool) :
    (updateFlowStats fs p d).first_timestamp = fs.first_timestamp := by
  cases d <;> simp only [updateFlowStats, updFwd, updBwd] <;> split <;> rfl

theorem updateFlowStats_last_timestamp (fs : FlowStats) (p : PacketInfo) (d : Bool) :
    (updateFlowStats fs p d).last_timestamp = p.timestamp := by
  cases d <;> simp only [updateFlowStats, updFwd, updBwd] <;> split <;> rfl

theorem updateFlowStats_fwd_count_true (fs : FlowStats) (p : PacketInfo) :
    (updateFlowStats fs p true).fwd_packet_count = fs.fwd_packet_count + 1 := by
  simp only [updateFlowStats, updFwd]
  split <;> rfl

theorem updateFlowStats_fwd_lengths_true (fs : FlowStats) (p : PacketInfo) :
    (updateFlowStats fs p true).fwd_packet_lengths = fs.fwd_packet_lengths ++ [p.length] := by
  simp only [updateFlowStats, updFwd]
  split <;> rfl

theorem updateFlowStats_bwd_count_true (fs : FlowStats) (p : PacketInfo) :
    (updateFlowStats fs p true).bwd_packet_count = fs.bwd_packet_count := by
  simp only [updateFlowStats, updFwd]
  split <;> rfl

theorem updateFlowStats_bwd_lengths_true (fs : FlowStats) (p : PacketInfo) :
    (updateFlowStats fs p true).bwd_packet_lengths = fs.bwd_packet_lengths := by
  simp only [updateFlowStats, updFwd]
  split <;> rfl

theorem updateFlowStats_bwd_count_false (fs : FlowStats) (p : PacketInfo) :
    (updateFlowStats fs p false).bwd_packet_count = fs.bwd_packet_count + 1 := by
  simp only [updateFlowStats, updBwd]
  split <;> rfl

theorem updateFlowStats_bwd_lengths_false (fs : FlowStats) (p : PacketInfo) :
    (updateFlowStats fs p false).bwd_packet_lengths = fs.bwd_packet_lengths ++ [p.length] := by
  simp only [updateFlowStats, updBwd]
  split <;> rfl

theorem updateFlowStats_fwd_count_false (fs : FlowStats) (p : PacketInfo) :
    (updateFlowStats fs p false).fwd_packet_count = fs.fwd_packet_count := by
  simp only [updateFlowStats, updBwd]
  split <;> rfl

theorem updateFlowStats_fwd_lengths_false (fs : FlowStats) (p : PacketInfo) :
    (updateFlowStats fs p false).fwd_packet_lengths = fs.fwd_packet_lengths := by
  simp only [updateFlowStats, updBwd]
  split <;> rfl

theorem updateFlowStats_fwd_iat_true (fs : FlowStats) (p : PacketInfo) :
    (updateFlowStats fs p true).fwd_iat =
      if 1 < (fs.fwd_packet_lengths ++ [p.length]).length then
        fs.fwd_iat ++ [max (if fs.fwd_iat ≠ [] then
            p.timestamp - (fs.first_timestamp + fs.fwd_iat.sum)
          else p.timestamp - fs.first_timestamp) 0]
      else fs.fwd_iat := by
  simp only [updateFlowStats, updFwd]
  split <;> rfl

theorem updateFlowStats_fwd_iat_false (fs : FlowStats) (p : PacketInfo) :
    (updateFlowStats fs p false).fwd_iat = fs.fwd_iat := by
  simp only [updateFlowStats, updBwd]
  split <;> rfl

theorem updateFlowStats_bwd_iat_false (fs : FlowStats) (p : PacketInfo) :
    (updateFlowStats fs p false).bwd_iat =
      if 1 < (fs.bwd_packet_lengths ++ [p.length]).length then
        fs.bwd_iat ++ [max (if fs.bwd_iat ≠ [] then
            p.timestamp - (fs.first_timestamp + fs.bwd_iat.sum)
          else p.timestamp - fs.first_timestamp) 0]
      else fs.bwd_iat := by
  simp only [updateFlowStats, updBwd]
  split <;> rfl

theorem updateFlowStats_bwd_iat_true (fs : FlowStats) (p : PacketInfo) :
    (updateFlowStats fs p true).bwd_iat = fs.bwd_iat := by
  simp only [updateFlowStats, updFwd]
  split <;> rfl

theorem updateFlowStats_fwd_iat_nonneg {fs : FlowStats} (p : PacketInfo) (d : Bool)
    (h : ∀ x ∈ fs.fwd_iat, 0 ≤ x) :
    ∀ x ∈ (updateFlowStats fs p d).fwd_iat, 0 ≤ x := by
  cases d with
  | false =>
    rw [updateFlowStats_fwd_iat_false]
    exact h
  | true =>
    intro x hx
    rw [updateFlowStats_fwd_iat_true] at hx
    split at hx
    · rcases List.mem_append.mp hx with hx | hx
      · exact h x hx
      · rw [List.mem_singleton.mp hx]
        exact le_max_right _ _
    · exact h x hx

theorem updateFlowStats_bwd_iat_nonneg {fs : FlowStats} (p : PacketInfo) (d : Bool)
    (h : ∀ x ∈ fs.bwd_iat, 0 ≤ x) :
    ∀ x ∈ (updateFlowStats fs p d).bwd_iat, 0 ≤ x := by
  cases d with
  | true =>
    rw [updateFlowStats_bwd_iat_true]
    exact h
  | false =>
    intro x hx
    rw [updateFlowStats_bwd_iat_false] at hx
    split at hx
    · rcases List.mem_append.mp hx with hx | hx
      · exact h x hx
      · rw [List.mem_singleton.mp hx]
        exact le_max_right _ _
    · exact h x hx

/-! ### Invariants of reachable extractor states -/

/-- Well-formedness of a flow table: keys are unique, every stored
accumulator records the key it is stored under, and a key and its reverse
never both appear (unless they coincide). -/
structure WFTab (t : FlowTable) : Prop where
  nodup : (keysOf t).Nodup
  keyed : ∀ e ∈ t, e.2.flow_key = e.1
  conv : ∀ k1 ∈ keysOf t, ∀ k2 ∈ keysOf t, k2 = k1.reverse → k1 = k2

/-- All recorded inter-arrival samples of a table are non-negative. -/
def iatTab (t : FlowTable) : Prop :=
  ∀ e ∈ t, (∀ x ∈ e.2.fwd_iat, 0 ≤ x) ∧ (∀ x ∈ e.2.bwd_iat, 0 ≤ x)

/-- Accounting: flows created = flows active + flows completed. -/
def balanced (s : ExtractorState) : Prop :=
  s.total_flows_created = s.flows.length + s.total_flows_completed

/-- Combined invariant of an extractor state. -/
def Inv (s : ExtractorState) : Prop :=
  WFTab s.flows ∧ iatTab s.flows ∧ balanced s

theorem eq_of_mem_keys_nodup {t : FlowTable} {e e' : FlowKey × FlowStats}
    (hnd : (keysOf t).Nodup) (he : e ∈ t) (he' : e' ∈ t) (h1 : e.1 = e'.1) :
    e = e' := by
  induction t with
  | nil => simp at he
  | cons a t ih =>
    rw [keysOf_cons, List.nodup_cons] at hnd
    rcases List.mem_cons.mp he with he | he <;>
      rcases List.mem_cons.mp he' with he' | he'
    · rw [he, he']
    · exact absurd (List.mem_map.mpr ⟨e', he', (he ▸ h1).symm⟩) hnd.1
    · exact absurd (List.mem_map.mpr ⟨e, he, he' ▸ h1⟩) hnd.1
    · exact ih hnd.2 he he'

theorem keysOf_filter_sublist (q : FlowKey × FlowStats → Bool) (t : FlowTable) :
    (keysOf (t.filter q)).Sublist (keysOf t) := by
  unfold keysOf
  exact List.Sublist.map _ (List.filter_sublist t)

theorem WFTab_filter {t : FlowTable} (q : FlowKey × FlowStats → Bool)
    (h : WFTab t) : WFTab (t.filter q) := by
  refine ⟨?_, ?_, ?_⟩
  · exact h.nodup.sublist (keysOf_filter_sublist q t)
  · intro e he
    exact h.keyed e (List.mem_filter.mp he).1
  · intro k1 hk1 k2 hk2 hrev
    exact h.conv k1 ((keysOf_filter_sublist q t).mem hk1)
      k2 ((keysOf_filter_sublist q t).mem hk2) hrev

theorem iatTab_filter {t : FlowTable} (q : FlowKey × FlowStats → Bool)
    (h : iatTab t) : iatTab (t.filter q) := by
  intro e he
  exact h e (List.mem_filter.mp he).1

theorem cleanup_flows_filter (sqrtQ : ℚ → ℚ) (s : ExtractorState) (now : ℚ)
    (hnd : (keysOf s.flows).Nodup) :
    (cleanupStaleFlows sqrtQ s now).2.flows
      = s.flows.filter (fun e => !(isFlowComplete s.flow_timeout e.2 now)) := by
  have hdef : (cleanupStaleFlows sqrtQ s now).2.flows
      = ((s.flows.filter (fun e => isFlowComplete s.flow_timeout e.2 now)).map
          (fun e => e.1)).foldl (fun a k => eraseFlow k a) s.flows := rfl
  rw [hdef, foldl_eraseFlow]
  apply List.filter_congr
  intro e he
  by_cases hc : isFlowComplete s.flow_timeout e.2 now
  · have : e.1 ∈ (s.flows.filter
        (fun e => isFlowComplete s.flow_timeout e.2 now)).map (fun e => e.1) :=
      List.mem_map.mpr ⟨e, List.mem_filter.mpr ⟨he, hc⟩, rfl⟩
    simp [this, hc]
  · have : e.1 ∉ (s.flows.filter
        (fun e => isFlowComplete s.flow_timeout e.2 now)).map (fun e => e.1) := by
      intro hmem
      rcases List.mem_map.mp hmem with ⟨e', he', h1⟩
      rcases List.mem_filter.mp he' with ⟨he't, hc'⟩
      have := eq_of_mem_keys_nodup hnd he he't h1.symm
      rw [this] at hc
      exact hc hc'
    simp only [hc]
    simp [this]

theorem cleanup_features_eq (sqrtQ : ℚ → ℚ) (s : ExtractorState) (now : ℚ) :
    (cleanupStaleFlows sqrtQ s now).1
      = (s.flows.filter (fun e => isFlowComplete s.flow_timeout e.2 now)).map
          (fun e => extractFeatures sqrtQ e.2) := rfl

theorem cleanup_completed_eq (sqrtQ : ℚ → ℚ) (s : ExtractorState) (now : ℚ) :
    (cleanupStaleFlows sqrtQ s now).2.total_flows_completed
      = s.total_flows_completed
        + (s.flows.filter (fun e => isFlowComplete s.flow_timeout e.2 now)).length := by
  show s.total_flows_completed + ((s.flows.filter _).map (fun e => e.1)).length = _
  rw [List.length_map]

theorem cleanup_created_eq (sqrtQ : ℚ → ℚ) (s : ExtractorState) (now : ℚ) :
    (cleanupStaleFlows sqrtQ s now).2.total_flows_created
      = s.total_flows_created := rfl

theorem cleanup_timeout_eq (sqrtQ : ℚ → ℚ) (s : ExtractorState) (now : ℚ) :
    (cleanupStaleFlows sqrtQ s now).2.flow_timeout = s.flow_timeout := rfl

theorem inv_cleanup (sqrtQ : ℚ → ℚ) (s : ExtractorState) (now : ℚ)
    (h : Inv s) : Inv (cleanupStaleFlows sqrtQ s now).2 := by
  rcases h with ⟨hwf, hiat, hbal⟩
  have hfl := cleanup_flows_filter sqrtQ s now hwf.nodup
  refine ⟨?_, ?_, ?_⟩
  · rw [hfl]
    exact WFTab_filter _ hwf
  · rw [hfl]
    exact iatTab_filter _ hiat
  · show (cleanupStaleFlows sqrtQ s now).2.total_flows_created
      = (cleanupStaleFlows sqrtQ s now).2.flows.length
        + (cleanupStaleFlows sqrtQ s now).2.total_flows_completed
    rw [cleanup_created_eq, cleanup_completed_eq, hfl]
    have := List.length_eq_length_filter_add
      (l := s.flows) (fun e => isFlowComplete s.flow_timeout e.2 now)
    rw [hbal]
    omega

theorem inv_finalize (sqrtQ : ℚ → ℚ) (s : ExtractorState)
    (h : Inv s) : Inv (finalizeAllFlows sqrtQ s).2 := by
  rcases h with ⟨_, _, hbal⟩
  have hfl : (finalizeAllFlows sqrtQ s).2.flows = [] := rfl
  refine ⟨⟨?_, ?_, ?_⟩, ?_, ?_⟩
  · rw [hfl, keysOf_nil]
    exact List.nodup_nil
  · rw [hfl]
    intro e he
    simp at he
  · rw [hfl, keysOf_nil]
    intro k1 hk1
    simp at hk1
  · rw [hfl]
    intro e he
    simp at he
  · show s.total_flows_created = 0 + (s.total_flows_completed + s.flows.length)
    rw [hbal]
    omega

theorem setFlow_length (k : FlowKey) (v : FlowStats) (t : FlowTable) :
    (setFlow k v t).length = t.length := by
  simp [setFlow]

theorem keysOf_append_single (t : FlowTable) (k : FlowKey) (v : FlowStats) :
    keysOf (t ++ [(k, v)]) = keysOf t ++ [k] := by
  simp [keysOf]

theorem WFTab_setFlow {t : FlowTable} {k : FlowKey} {v : FlowStats}
    (h : WFTab t) (hv : v.flow_key = k) : WFTab (setFlow k v t) := by
  refine ⟨?_, ?_, ?_⟩
  · rw [keysOf_setFlow]
    exact h.nodup
  · intro e he
    rcases mem_setFlow he with he | he
    · rw [he]
      exact hv
    · exact h.keyed e he
  · intro k1 hk1 k2 hk2
    rw [keysOf_setFlow] at hk1 hk2
    exact h.conv k1 hk1 k2 hk2

theorem iatTab_setFlow {t : FlowTable} {k : FlowKey} {v : FlowStats}
    (ht : iatTab t)
    (hv : (∀ x ∈ v.fwd_iat, 0 ≤ x) ∧ (∀ x ∈ v.bwd_iat, 0 ≤ x)) :
    iatTab (setFlow k v t) := by
  intro e he
  rcases mem_setFlow he with he | he
  · rw [he]
    exact hv
  · exact ht e he

theorem inv_erase (s1 : ExtractorState) (k : FlowKey)
    (h1 : Inv s1) (hk : k ∈ keysOf s1.flows) :
    Inv { s1 with flows := eraseFlow k s1.flows,
                  total_flows_completed := s1.total_flows_completed + 1 } := by
  rcases h1 with ⟨hwf, hiat, hbal⟩
  refine ⟨?_, ?_, ?_⟩
  · show WFTab (eraseFlow k s1.flows)
    unfold eraseFlow
    exact WFTab_filter _ hwf
  · show iatTab (eraseFlow k s1.flows)
    unfold eraseFlow
    exact iatTab_filter _ hiat
  · show s1.total_flows_created
      = (eraseFlow k s1.flows).length + (s1.total_flows_completed + 1)
    have hlen := length_eraseFlow_of_mem hwf.nodup hk
    rw [hbal]
    omega

theorem inv_processPacket (sqrtQ : ℚ → ℚ) (s : ExtractorState) (p : PacketInfo)
    (c : Bool) (h : Inv s) : Inv (processPacket sqrtQ s p c).2 := by
  obtain ⟨hwf, hiat, hbal⟩ := h
  cases hl : lookupFlow (createFlowKey p) s.flows with
  | some fs =>
    have hmem := mem_of_lookupFlow hl
    have hkey : fs.flow_key = createFlowKey p := hwf.keyed _ hmem
    have hukey : (updateFlowStats fs p true).flow_key = createFlowKey p := by
      rw [updateFlowStats_flow_key, hkey]
    have hInv1 : Inv { s with
        flows := setFlow (createFlowKey p) (updateFlowStats fs p true) s.flows } := by
      refine ⟨WFTab_setFlow hwf hukey, iatTab_setFlow hiat ⟨?_, ?_⟩, ?_⟩
      · exact updateFlowStats_fwd_iat_nonneg p true (hiat _ hmem).1
      · exact updateFlowStats_bwd_iat_nonneg p true (hiat _ hmem).2
      · show s.total_flows_created
          = (setFlow (createFlowKey p) (updateFlowStats fs p true) s.flows).length
            + s.total_flows_completed
        rw [setFlow_length]
        exact hbal
    have hk : (updateFlowStats fs p true).flow_key
        ∈ keysOf (setFlow (createFlowKey p) (updateFlowStats fs p true) s.flows) := by
      rw [keysOf_setFlow, hukey]
      exact keysOf_mem_of_lookupFlow hl
    simp only [processPacket, hl]
    split
    · exact inv_erase _ _ hInv1 hk
    · split
      · exact inv_cleanup sqrtQ _ p.timestamp hInv1
      · exact hInv1
  | none =>
    cases hr : lookupFlow (createFlowKey p).reverse s.flows with
    | some fs =>
      have hmem := mem_of_lookupFlow hr
      have hkey : fs.flow_key = (createFlowKey p).reverse := hwf.keyed _ hmem
      have hukey : (updateFlowStats fs p false).flow_key
          = (createFlowKey p).reverse := by
        rw [updateFlowStats_flow_key, hkey]
      have hInv1 : Inv { s with
          flows := setFlow (createFlowKey p).reverse
            (updateFlowStats fs p false) s.flows } := by
        refine ⟨WFTab_setFlow hwf hukey, iatTab_setFlow hiat ⟨?_, ?_⟩, ?_⟩
        · exact updateFlowStats_fwd_iat_nonneg p false (hiat _ hmem).1
        · exact updateFlowStats_bwd_iat_nonneg p false (hiat _ hmem).2
        · show s.total_flows_created
            = (setFlow (createFlowKey p).reverse
                (updateFlowStats fs p false) s.flows).length
              + s.total_flows_completed
          rw [setFlow_length]
          exact hbal
      have hk : (updateFlowStats fs p false).flow_key
          ∈ keysOf (setFlow (createFlowKey p).reverse
              (updateFlowStats fs p false) s.flows) := by
        rw [keysOf_setFlow, hukey]
        exact keysOf_mem_of_lookupFlow hr
      simp only [processPacket, hl, hr]
      split
      · exact inv_erase _ _ hInv1 hk
      · split
        · exact inv_cleanup sqrtQ _ p.timestamp hInv1
        · exact hInv1
    | none =>
      have hnk : createFlowKey p ∉ keysOf s.flows := lookupFlow_eq_none.mp hl
      have hnr : (createFlowKey p).reverse ∉ keysOf s.flows := lookupFlow_eq_none.mp hr
      have hwf0 : WFTab (s.flows
          ++ [(createFlowKey p, newFlowStats (createFlowKey p) p.timestamp)]) := by
        refine ⟨?_, ?_, ?_⟩
        · rw [keysOf_append_single]
          simp [List.nodup_append, hwf.nodup, hnk]
        · intro e he
          rcases List.mem_append.mp he with he | he
          · exact hwf.keyed e he
          · rw [List.mem_singleton.mp he]
            rfl
        · intro k1 hk1 k2 hk2 hrev
          rw [keysOf_append_single] at hk1 hk2
          rcases List.mem_append.mp hk1 with hk1 | hk1 <;>
            rcases List.mem_append.mp hk2 with hk2 | hk2
          · exact hwf.conv k1 hk1 k2 hk2 hrev
          · rw [List.mem_singleton.mp hk2] at hrev ⊢
            have : k1 = (createFlowKey p).reverse := by
              rw [hrev, FlowKey.reverse_reverse]
            exact absurd (this ▸ hk1) hnr
          · rw [List.mem_singleton.mp hk1] at hrev
            exact absurd (hrev ▸ hk2) hnr
          · rw [List.mem_singleton.mp hk1, List.mem_singleton.mp hk2]
      have hukey : (updateFlowStats (newFlowStats (createFlowKey p) p.timestamp)
          p true).flow_key = createFlowKey p := by
        rw [updateFlowStats_flow_key]
        rfl
      have hInv1 : Inv { s with
          flows := setFlow (createFlowKey p)
            (updateFlowStats (newFlowStats (createFlowKey p) p.timestamp) p true)
            (s.flows ++ [(createFlowKey p, newFlowStats (createFlowKey p) p.timestamp)])
          total_flows_created := s.total_flows_created + 1 } := by
        refine ⟨WFTab_setFlow hwf0 hukey, iatTab_setFlow ?_ ⟨?_, ?_⟩, ?_⟩
        · intro e he
          rcases List.mem_append.mp he with he | he
          · exact hiat e he
          · rw [List.mem_singleton.mp he]
            constructor <;> intro x hx <;> simp [newFlowStats] at hx
        · apply updateFlowStats_fwd_iat_nonneg
          intro x hx
          simp [newFlowStats] at hx
        · apply updateFlowStats_bwd_iat_nonneg
          intro x hx
          simp [newFlowStats] at hx
        · show s.total_flows_created + 1
            = (setFlow (createFlowKey p)
                (updateFlowStats (newFlowStats (createFlowKey p) p.timestamp) p true)
                (s.flows ++ [(createFlowKey p,
                  newFlowStats (createFlowKey p) p.timestamp)])).length
              + s.total_flows_completed
          rw [setFlow_length, List.length_append]
          rw [hbal]
          simp
          omega
      have hk : (updateFlowStats (newFlowStats (createFlowKey p) p.timestamp)
          p true).flow_key
          ∈ keysOf (setFlow (createFlowKey p)
              (updateFlowStats (newFlowStats (createFlowKey p) p.timestamp) p true)
              (s.flows ++ [(createFlowKey p,
                newFlowStats (createFlowKey p) p.timestamp)])) := by
        rw [keysOf_setFlow, hukey, keysOf_append_single]
        exact List.mem_append_right _ (List.mem_singleton.mpr rfl)
      simp only [processPacket, hl, hr]
      split
      · exact inv_erase _ _ hInv1 hk
      · split
        · exact inv_cleanup sqrtQ _ p.timestamp hInv1
        · exact hInv1

theorem inv_init (flow_timeout : ℚ) : Inv (initState flow_timeout) := by
  refine ⟨⟨?_, ?_, ?_⟩, ?_, ?_⟩
  · exact List.nodup_nil
  · intro e he
    simp [initState] at he
  · intro k1 hk1
    simp [initState, keysOf_nil] at hk1
  · intro e he
    simp [initState] at he
  · rfl

theorem inv_stepOp (sqrtQ : ℚ → ℚ) (s : ExtractorState) (op : AggOp)
    (h : Inv s) : Inv (stepOp sqrtQ s op) := by
  cases op with
  | ingest p c => exact inv_processPacket sqrtQ s p c h
  | sweep now => exact inv_cleanup sqrtQ s now h
  | drain => exact inv_finalize sqrtQ s h

theorem inv_runOps (sqrtQ : ℚ → ℚ) (flow_timeout : ℚ) (ops : List AggOp) :
    Inv (runOps sqrtQ flow_timeout ops) := by
  suffices h : ∀ s, Inv s → Inv (ops.foldl (stepOp sqrtQ) s) by
    exact h _ (inv_init flow_timeout)
  induction ops with
  | nil => exact fun s hs => hs
  | cons op ops ih =>
    intro s hs
    exact ih _ (inv_stepOp sqrtQ s op hs)

/-! ### Further lookup lemmas -/

theorem mem_setFlow_strong {k : FlowKey} {fs : FlowStats} {t : FlowTable}
    {e : FlowKey × FlowStats} (h : e ∈ setFlow k fs t) :
    e = (k, fs) ∨ (e ∈ t ∧ e.1 ≠ k) := by
  rcases List.mem_map.mp h with ⟨e0, he0, heq⟩
  by_cases h1 : e0.1 = k
  · left
    simp [h1] at heq
    exact heq.symm
  · right
    simp [h1] at heq
    subst heq
    exact ⟨he0, h1⟩

theorem lookupFlow_cleanup (sqrtQ : ℚ → ℚ) (s1 : ExtractorState) (now : ℚ)
    {k : FlowKey} {v : FlowStats}
    (hl : lookupFlow k s1.flows = some v)
    (hall : ∀ e ∈ s1.flows, e.1 = k → e.2 = v)
    (hnc : isFlowComplete s1.flow_timeout v now = false) :
    lookupFlow k (cleanupStaleFlows sqrtQ s1 now).2.flows = some v := by
  have hdef : (cleanupStaleFlows sqrtQ s1 now).2.flows
      = ((s1.flows.filter (fun e => isFlowComplete s1.flow_timeout e.2 now)).map
          (fun e => e.1)).foldl (fun a k => eraseFlow k a) s1.flows := rfl
  rw [hdef, foldl_eraseFlow]
  apply lookupFlow_filter hl
  rw [decide_eq_true_eq]
  intro hmem
  rcases List.mem_map.mp hmem with ⟨e', he', h1⟩
  rcases List.mem_filter.mp he' with ⟨he't, hc'⟩
  rw [hall e' he't h1] at hc'
  rw [hnc] at hc'
  exact Bool.false_ne_true hc'

theorem any_key_eq_mem (k : FlowKey) (t : FlowTable) :
    (t.any fun e => decide (e.1 = k)) = true ↔ k ∈ keysOf t := by
  rw [List.any_eq_true]
  constructor
  · rintro ⟨e, he, hek⟩
    rw [decide_eq_true_eq] at hek
    exact List.mem_map.mpr ⟨e, he, hek⟩
  · intro hm
    rcases List.mem_map.mp hm with ⟨e, he, hek⟩
    exact ⟨e, he, by rw [decide_eq_true_eq]; exact hek⟩

/-! ### Concrete fixtures used by witnesses and counterexamples -/

/-- A sample key with distinct endpoints. -/
def kEx : FlowKey :=
  { src_ip := "10.0.0.1", dst_ip := "10.0.0.2",
    src_port := 1234, dst_port := 80, protocol := Protocol.TCP }

/-- A palindromic key (equal endpoints), equal to its own reverse. -/
def kPal : FlowKey :=
  { src_ip := "10.0.0.7", dst_ip := "10.0.0.7",
    src_port := 9, dst_port := 9, protocol := Protocol.UDP }

/-- A packet whose key is kPal. -/
def pPal : PacketInfo :=
  { timestamp := 0, src_ip := "10.0.0.7", dst_ip := "10.0.0.7",
    src_port := 9, dst_port := 9, protocol := Protocol.UDP, length := 100 }

/-- First packet of the kEx conversation, at t = 0. -/
def pEx0 : PacketInfo :=
  { timestamp := 0, src_ip := "10.0.0.1", dst_ip := "10.0.0.2",
    src_port := 1234, dst_port := 80, protocol := Protocol.TCP, length := 100 }

/-- Second forward packet of the kEx conversation, at t = 1. -/
def pEx1 : PacketInfo :=
  { timestamp := 1, src_ip := "10.0.0.1", dst_ip := "10.0.0.2",
    src_port := 1234, dst_port := 80, protocol := Protocol.TCP, length := 150 }

/-- A backward packet of the kEx conversation, at t = 2. -/
def pExRev : PacketInfo :=
  { timestamp := 2, src_ip := "10.0.0.2", dst_ip := "10.0.0.1",
    src_port := 80, dst_port := 1234, protocol := Protocol.TCP, length := 200 }

/-- A very late forward packet of the kEx conversation, at t = 1000. -/
def pExLate : PacketInfo :=
  { timestamp := 1000, src_ip := "10.0.0.1", dst_ip := "10.0.0.2",
    src_port := 1234, dst_port := 80, protocol := Protocol.TCP, length := 150 }

/-- Extractor state holding only the kEx flow created by pEx0, timeout 60. -/
def sEx : ExtractorState := (processPacket id (initState 60) pEx0 false).2

/-- The kEx accumulator after its first packet. -/
def fsEx : FlowStats := updateFlowStats (newFlowStats kEx 0) pEx0 true

/-- The kPal accumulator after its first packet. -/
def fsPal : FlowStats := updateFlowStats (newFlowStats kPal 0) pPal true

/-- A second key, disjoint from kEx. -/
def kB : FlowKey :=
  { src_ip := "192.168.1.5", dst_ip := "192.168.1.6",
    src_port := 5000, dst_port := 53, protocol := Protocol.UDP }

/-- A two-flow table state for the sweep witness: the kEx flow is idle since
t = 0, the kB flow since t = 50; with timeout 60, at now = 70 exactly the
kEx flow is stale. -/
def sSweep : ExtractorState :=
  { flow_timeout := 60
    flows := [(kEx, newFlowStats kEx 0), (kB, newFlowStats kB 50)]
    total_flows_created := 2
    total_flows_completed := 0 }

/-! ### Claims -/

/-- C9: FlowKey.reverse is a pure involution: reverse (reverse k) = k for
every key, and reverse k differs from k whenever the source endpoint
(address, port) differs from the destination endpoint. -/
theorem C9_reverse_symmetry (k : FlowKey) :
    k.reverse.reverse = k ∧
    ((k.src_ip, k.src_port) ≠ (k.dst_ip, k.dst_port) → k.reverse ≠ k) := by
  refine ⟨rfl, ?_⟩
  intro hend heq
  apply hend
  have h1 : k.dst_ip = k.src_ip := congrArg FlowKey.src_ip heq
  have h2 : k.dst_port = k.src_port := congrArg FlowKey.src_port heq
  rw [h1, h2]

/-- Witness for C9 at the concrete key kEx, whose endpoints differ. -/
theorem C9_reverse_symmetry_witness :
    kEx.reverse.reverse = kEx ∧ kEx.reverse ≠ kEx :=
  ⟨(C9_reverse_symmetry kEx).1,
    (C9_reverse_symmetry kEx).2 (by decide)⟩

/-- C8: the statistics helpers are total with zero fallbacks: the mean of
the empty list is 0, the standard deviation of the empty list and of any
one-element list is 0; on two or more elements the mean is the arithmetic
mean and the standard deviation is the square root of the sample variance
(Bessel-corrected), as computed by statistics.mean / statistics.stdev. -/
theorem C8_safe_statistics (sqrtQ : ℚ → ℚ) :
    safe_mean [] = 0 ∧
    safe_std sqrtQ [] = 0 ∧
    (∀ x : ℚ, safe_std sqrtQ [x] = 0) ∧
    (∀ xs : List ℚ, xs ≠ [] → safe_mean xs = xs.sum / (xs.length : ℚ)) ∧
    (∀ xs : List ℚ, 2 ≤ xs.length → safe_std sqrtQ xs = sqrtQ (sampleVariance xs)) := by
  refine ⟨rfl, rfl, fun x => rfl, ?_, ?_⟩
  · intro xs hxs
    rw [safe_mean, if_neg hxs]
  · intro xs hlen
    rw [safe_std, if_pos (by omega)]

/-- Witness for C8: the one-element and two-element parts at x = 5 and
xs = [1, 3], with the identity as the abstract square root. -/
theorem C8_safe_statistics_witness :
    safe_mean [] = 0 ∧ safe_std id [] = 0 ∧ safe_std id [(5 : ℚ)] = 0 ∧
    ([(1 : ℚ), 3] ≠ [] ∧ safe_mean [(1 : ℚ), 3] = ([(1 : ℚ), 3].sum / 2)) ∧
    (2 ≤ [(1 : ℚ), 3].length ∧ safe_std id [(1 : ℚ), 3] = id (sampleVariance [(1 : ℚ), 3])) := by
  obtain ⟨h1, h2, h3, h4, h5⟩ := C8_safe_statistics id
  refine ⟨h1, h2, h3 5, ⟨by decide, ?_⟩, ⟨by decide, h5 [1, 3] (by decide)⟩⟩
  rw [h4 [1, 3] (by decide)]
  norm_num

/-- C10: accounting invariant: after any sequence of ingest, sweep and
drain operations from a fresh extractor, total_flows_created equals
active_flows plus total_flows_completed as reported by get_statistics. -/
theorem C10_accounting (sqrtQ : ℚ → ℚ) (flow_timeout : ℚ) (ops : List AggOp) :
    (getStatistics (runOps sqrtQ flow_timeout ops)).total_flows_created
      = (getStatistics (runOps sqrtQ flow_timeout ops)).active_flows
        + (getStatistics (runOps sqrtQ flow_timeout ops)).total_flows_completed := by
  obtain ⟨-, -, hbal⟩ := inv_runOps sqrtQ flow_timeout ops
  exact hbal

/-- C5: drain (finalize_all_flows) returns exactly one feature vector per
accumulator present before the call (so the returned length equals the
previous table size), empties the table, and a second drain on the empty
table returns an empty list. -/
theorem C5_drain_completeness (sqrtQ : ℚ → ℚ) (s : ExtractorState) :
    (finalizeAllFlows sqrtQ s).1
      = s.flows.map (fun e => extractFeatures sqrtQ e.2) ∧
    (finalizeAllFlows sqrtQ s).1.length = s.flows.length ∧
    (finalizeAllFlows sqrtQ s).2.flows = [] ∧
    (finalizeAllFlows sqrtQ (finalizeAllFlows sqrtQ s).2).1 = [] := by
  refine ⟨rfl, ?_, rfl, rfl⟩
  show (s.flows.map _).length = s.flows.length
  rw [List.length_map]

/-- C6 counterexample: removing an absent key is not a normal no-op return:
the code removes with Python del, which raises KeyError on an absent key
(modelled as none); here deleting kEx from the empty table. -/
theorem C6_counterexample : dictDel kEx [] = none := rfl

/-- C6 amended: table removal (Python del) returns normally exactly when
the key is present, in which case it removes that key's entry; on an absent
key it raises KeyError (none) instead of being a no-op. -/
theorem C6_remove_semantics (k : FlowKey) (t : FlowTable) :
    dictDel k t = if k ∈ keysOf t then some (eraseFlow k t) else none := by
  unfold dictDel
  by_cases h : k ∈ keysOf t
  · rw [if_pos ((any_key_eq_mem k t).mpr h), if_pos h]
  · rw [if_neg ?_, if_neg h]
    intro hc
    exact h ((any_key_eq_mem k t).mp hc)

/-- C4: the sweep (_cleanup_stale_flows) removes exactly the accumulators
whose inactivity reached the timeout, leaves the rest unchanged (in order),
and returns one feature vector per removed accumulator — all of them. -/
theorem C4_sweep_exact (sqrtQ : ℚ → ℚ) (s : ExtractorState) (now : ℚ)
    (hnd : (keysOf s.flows).Nodup) :
    (cleanupStaleFlows sqrtQ s now).2.flows
      = s.flows.filter (fun e => !(isFlowComplete s.flow_timeout e.2 now)) ∧
    (cleanupStaleFlows sqrtQ s now).1
      = (s.flows.filter (fun e => isFlowComplete s.flow_timeout e.2 now)).map
          (fun e => extractFeatures sqrtQ e.2) ∧
    (cleanupStaleFlows sqrtQ s now).1.length
      = (s.flows.filter (fun e => isFlowComplete s.flow_timeout e.2 now)).length := by
  refine ⟨cleanup_flows_filter sqrtQ s now hnd, cleanup_features_eq sqrtQ s now, ?_⟩
  rw [cleanup_features_eq sqrtQ s now, List.length_map]

/-- Witness for C4 on the two-flow state sSweep at now = 70: exactly the
stale kEx flow is removed and reported, the fresh kB flow stays. -/
theorem C4_sweep_exact_witness :
    (keysOf sSweep.flows).Nodup ∧
    (cleanupStaleFlows id sSweep 70).2.flows = [(kB, newFlowStats kB 50)] ∧
    (cleanupStaleFlows id sSweep 70).1.length = 1 := by
  have h := C4_sweep_exact id sSweep 70 (by decide)
  refine ⟨by decide, h.1.trans ?_, h.2.2.trans ?_⟩
  · norm_num [sSweep, isFlowComplete, newFlowStats, kEx, kB]
  · norm_num [sSweep, isFlowComplete, newFlowStats, kEx, kB]

/-- C2: at most one accumulator per unordered conversation: in any state
reachable by a sequence of operations from a fresh extractor, if both a key
and its reverse resolve in the table, they resolve to the same accumulator. -/
theorem C2_single_accumulator (sqrtQ : ℚ → ℚ) (flow_timeout : ℚ)
    (ops : List AggOp) (k : FlowKey) (a b : FlowStats)
    (ha : lookupFlow k (runOps sqrtQ flow_timeout ops).flows = some a)
    (hb : lookupFlow k.reverse (runOps sqrtQ flow_timeout ops).flows = some b) :
    a = b := by
  obtain ⟨hwf, -, -⟩ := inv_runOps sqrtQ flow_timeout ops
  have heq : k = k.reverse :=
    hwf.conv k (keysOf_mem_of_lookupFlow ha) k.reverse (keysOf_mem_of_lookupFlow hb) rfl
  rw [← heq] at hb
  exact Option.some.inj (ha.symm.trans hb)

/-- Witness for C2: after ingesting the palindromic packet pPal, both kPal
and its reverse resolve, necessarily to the same accumulator. -/
theorem C2_single_accumulator_witness :
    lookupFlow kPal (runOps id 60 [AggOp.ingest pPal false]).flows = some fsPal ∧
    lookupFlow kPal.reverse (runOps id 60 [AggOp.ingest pPal false]).flows = some fsPal ∧
    fsPal = fsPal := by
  have ha : lookupFlow kPal (runOps id 60 [AggOp.ingest pPal false]).flows
      = some fsPal := by
    norm_num [runOps, stepOp, processPacket, initState, lookupFlow, createFlowKey,
      kPal, pPal, fsPal, newFlowStats, setFlow, isFlowComplete,
      updateFlowStats_last_timestamp]
  have hb : lookupFlow kPal.reverse (runOps id 60 [AggOp.ingest pPal false]).flows
      = some fsPal := by
    norm_num [runOps, stepOp, processPacket, initState, lookupFlow, createFlowKey,
      FlowKey.reverse, kPal, pPal, fsPal, newFlowStats, setFlow, isFlowComplete,
      updateFlowStats_last_timestamp]
  exact ⟨ha, hb,
    C2_single_accumulator id 60 [AggOp.ingest pPal false] kPal fsPal fsPal ha hb⟩

/-- C7: every inter-arrival value stored in any accumulator of any state
reachable from a fresh extractor is non-negative (the update clamps at 0),
for arbitrary packet timestamps. -/
theorem C7_nonneg_iat (sqrtQ : ℚ → ℚ) (flow_timeout : ℚ) (ops : List AggOp)
    (e : FlowKey × FlowStats)
    (he : e ∈ (runOps sqrtQ flow_timeout ops).flows)
    (x : ℚ) (hx : x ∈ e.2.fwd_iat ++ e.2.bwd_iat) : 0 ≤ x := by
  obtain ⟨-, hiat, -⟩ := inv_runOps sqrtQ flow_timeout ops
  rcases List.mem_append.mp hx with hx | hx
  · exact (hiat e he).1 x hx
  · exact (hiat e he).2 x hx

/-- Witness for C7: after two forward packets at t = 0 and t = 1, the flow
holds the inter-arrival sample 1, which is non-negative. -/
theorem C7_nonneg_iat_witness : 0 ≤ (1 : ℚ) := by
  refine C7_nonneg_iat id 60 [AggOp.ingest pEx0 false, AggOp.ingest pEx1 false]
    (kEx, updateFlowStats (updateFlowStats (newFlowStats kEx 0) pEx0 true) pEx1 true)
    ?_ 1 ?_
  · norm_num [runOps, stepOp, processPacket, initState, lookupFlow, createFlowKey,
      kEx, pEx0, pEx1, newFlowStats, setFlow, isFlowComplete,
      updateFlowStats_last_timestamp]
  · norm_num [updateFlowStats_fwd_iat_true, updateFlowStats_bwd_iat_true,
      updateFlowStats_fwd_lengths_true, updateFlowStats_first_timestamp,
      newFlowStats, pEx0, pEx1]

/-- C3: direction accounting: while a conversation's accumulator is stored
under key k (the key of the packet that created it), a further packet whose
key is k is counted forward (forward counter incremented and length
appended, backward side untouched), and a further packet whose key is
reverse(k) is counted backward (backward counter incremented and length
appended, forward side untouched), regardless of where in the stream the
packet occurs. -/
theorem C3_direction_accounting (sqrtQ : ℚ → ℚ) (s : ExtractorState)
    (k : FlowKey) (fs : FlowStats) (p q : PacketInfo) (c c' : Bool)
    (ht : 0 < s.flow_timeout)
    (hk : lookupFlow k s.flows = some fs) :
    (createFlowKey p = k →
      lookupFlow k (processPacket sqrtQ s p c).2.flows
        = some (updateFlowStats fs p true) ∧
      (updateFlowStats fs p true).fwd_packet_count = fs.fwd_packet_count + 1 ∧
      (updateFlowStats fs p true).fwd_packet_lengths
        = fs.fwd_packet_lengths ++ [p.length] ∧
      (updateFlowStats fs p true).bwd_packet_count = fs.bwd_packet_count ∧
      (updateFlowStats fs p true).bwd_packet_lengths = fs.bwd_packet_lengths) ∧
    (createFlowKey q = k.reverse →
      lookupFlow k.reverse s.flows = none →
      lookupFlow k (processPacket sqrtQ s q c').2.flows
        = some (updateFlowStats fs q false) ∧
      (updateFlowStats fs q false).bwd_packet_count = fs.bwd_packet_count + 1 ∧
      (updateFlowStats fs q false).bwd_packet_lengths
        = fs.bwd_packet_lengths ++ [q.length] ∧
      (updateFlowStats fs q false).fwd_packet_count = fs.fwd_packet_count ∧
      (updateFlowStats fs q false).fwd_packet_lengths = fs.fwd_packet_lengths) := by
  constructor
  · intro hp
    rw [← hp] at hk
    have hnc : isFlowComplete s.flow_timeout (updateFlowStats fs p true)
        p.timestamp = false := by
      unfold isFlowComplete
      rw [updateFlowStats_last_timestamp, sub_self, decide_eq_false_iff_not]
      exact not_le.mpr ht
    refine ⟨?_, updateFlowStats_fwd_count_true fs p,
      updateFlowStats_fwd_lengths_true fs p,
      updateFlowStats_bwd_count_true fs p,
      updateFlowStats_bwd_lengths_true fs p⟩
    rw [← hp]
    simp only [processPacket, hk]
    rw [if_neg (by simp [hnc])]
    cases c with
    | false =>
      rw [if_neg (by simp)]
      exact lookupFlow_setFlow_self hk
    | true =>
      rw [if_pos rfl]
      refine lookupFlow_cleanup sqrtQ _ p.timestamp (lookupFlow_setFlow_self hk) ?_ hnc
      intro e he hek
      rcases mem_setFlow_strong he with he | he
      · rw [he]
      · exact absurd hek he.2
  · intro hq hrn
    have h1 : lookupFlow (createFlowKey q) s.flows = none := by
      rw [hq]
      exact hrn
    have h2 : lookupFlow (createFlowKey q).reverse s.flows = some fs := by
      rw [hq, FlowKey.reverse_reverse]
      exact hk
    have hnc : isFlowComplete s.flow_timeout (updateFlowStats fs q false)
        q.timestamp = false := by
      unfold isFlowComplete
      rw [updateFlowStats_last_timestamp, sub_self, decide_eq_false_iff_not]
      exact not_le.mpr ht
    refine ⟨?_, updateFlowStats_bwd_count_false fs q,
      updateFlowStats_bwd_lengths_false fs q,
      updateFlowStats_fwd_count_false fs q,
      updateFlowStats_fwd_lengths_false fs q⟩
    have hkq : lookupFlow k s.flows = some fs := hk
    simp only [processPacket, h1, h2]
    rw [hq, FlowKey.reverse_reverse]
    rw [if_neg (by simp [hnc])]
    cases c' with
    | false =>
      rw [if_neg (by simp)]
      exact lookupFlow_setFlow_self hkq
    | true =>
      rw [if_pos rfl]
      refine lookupFlow_cleanup sqrtQ _ q.timestamp (lookupFlow_setFlow_self hkq) ?_ hnc
      intro e he hek
      rcases mem_setFlow_strong he with he | he
      · rw [he]
      · exact absurd hek he.2

/-- Witness for C3 on the concrete one-flow state sEx: the second forward
packet pEx1 lands in the forward statistics and the reverse packet pExRev
in the backward statistics of the kEx accumulator. -/
theorem C3_direction_accounting_witness :
    lookupFlow kEx (processPacket id sEx pEx1 false).2.flows
      = some (updateFlowStats fsEx pEx1 true) ∧
    lookupFlow kEx (processPacket id sEx pExRev false).2.flows
      = some (updateFlowStats fsEx pExRev false) := by
  have ht : 0 < sEx.flow_timeout := by
    norm_num [sEx, processPacket, initState, lookupFlow, createFlowKey, pEx0,
      isFlowComplete, updateFlowStats_last_timestamp]
  have hk : lookupFlow kEx sEx.flows = some fsEx := by
    norm_num [sEx, processPacket, initState, lookupFlow, createFlowKey, pEx0,
      kEx, fsEx, newFlowStats, setFlow, isFlowComplete,
      updateFlowStats_last_timestamp]
  have hrn : lookupFlow kEx.reverse sEx.flows = none := by
    norm_num [sEx, processPacket, initState, lookupFlow, createFlowKey, pEx0,
      kEx, FlowKey.reverse, setFlow, isFlowComplete,
      updateFlowStats_last_timestamp]
  have h := C3_direction_accounting id sEx kEx fsEx pEx1 pExRev false false ht hk
  exact ⟨(h.1 (by decide)).1, (h.2 (by decide) hrn).1⟩

/-- C1: behaviour of the code at the claim's trigger (flow_timeout 60, the
kEx flow last seen at t = 0, a same-key packet at t = 1000): the premise of
the claim holds (1000 - 0 >= 60), yet process_packet returns no feature
vector and the accumulator stays in the table with lastSeen advanced to
1000. The completion check runs only after _update_flow_stats has set
last_timestamp to the packet's own timestamp, so the computed inactivity is
always 0 and the per-packet timeout finalization never fires for a positive
timeout, contradicting the claim (and the function's stated contract). -/
theorem C1_late_packet_not_finalized :
    sEx.flow_timeout ≤ pExLate.timestamp - fsEx.last_timestamp ∧
    lookupFlow kEx sEx.flows = some fsEx ∧
    (processPacket id sEx pExLate false).1 = none ∧
    (processPacket id sEx pExLate false).2.flows
      = [(kEx, updateFlowStats fsEx pExLate true)] := by
  refine ⟨?_, ?_, ?_, ?_⟩
  · norm_num [sEx, processPacket, initState, lookupFlow, createFlowKey, pEx0,
      pExLate, fsEx, newFlowStats, isFlowComplete,
      updateFlowStats_last_timestamp]
  · norm_num [sEx, processPacket, initState, lookupFlow, createFlowKey, pEx0,
      kEx, fsEx, newFlowStats, setFlow, isFlowComplete,
      updateFlowStats_last_timestamp]
  · norm_num [sEx, processPacket, initState, lookupFlow, createFlowKey, pEx0,
      pExLate, kEx, fsEx, newFlowStats, setFlow, isFlowComplete,
      updateFlowStats_last_timestamp]
  · norm_num [sEx, processPacket, initState, lookupFlow, createFlowKey, pEx0,
      pExLate, kEx, fsEx, newFlowStats, setFlow, isFlowComplete,
      updateFlowStats_last_timestamp]

end CipherAegis
